import Mathlib

set_option maxRecDepth 10000

/-!
Verification of the Midnight-Scavenger mining client.

The dual difficulty predicate is embedded from `src/lib/mining/difficulty.ts`;
the mining orchestrator's submission gate, receipt replay, nonce partitioning
and dev-fee obligation are embedded from the orchestrator source.  Hex strings
are represented as lists of hex-digit values (`Fin 16`).
-/

instance {ε α : Type} [DecidableEq ε] [DecidableEq α] : DecidableEq (Except ε α) :=
  fun a b =>
    match a, b with
    | Except.ok x, Except.ok y =>
        if h : x = y then isTrue (by rw [h]) else isFalse (by simp [h])
    | Except.error x, Except.error y =>
        if h : x = y then isTrue (by rw [h]) else isFalse (by simp [h])
    | Except.ok _, Except.error _ => isFalse (by simp)
    | Except.error _, Except.ok _ => isFalse (by simp)

/-- A single hex digit (the value of one lowercase hex character). -/
abbrev HexDigit := Fin 16

/-- A hex string, one entry per hex character, most significant first. -/
abbrev Hex := List HexDigit

/-- Big-endian numeric value of a hex string (JS `parseInt(s, 16)`). -/
def hexVal (l : Hex) : Nat := l.foldl (fun acc d => 16 * acc + d.val) 0

/-- Byte decoding used for `hashBytes` in `matchesDifficulty`: successive
2-hex-char slices.  A trailing odd digit is dropped, because the JS write at
index `len/2` falls outside the `Uint8Array` of length `⌊len/2⌋`. -/
def hexToBytes : Hex → List Nat
  | a :: b :: rest => (16 * a.val + b.val) :: hexToBytes rest
  | _ => []

/-- Byte decoding used inside `difficultyToZeroBits`: successive 2-hex-char
slices pushed to a plain array, so a trailing odd digit becomes its own byte. -/
def hexToBytesAll : Hex → List Nat
  | a :: b :: rest => (16 * a.val + b.val) :: hexToBytesAll rest
  | [a] => [a.val]
  | [] => []

/-- Inner loop of `difficultyToZeroBits` on one byte: the source iterates
`bit = 7 .. 0`, counting while `(b & (1 << bit)) === 0` and breaking at the
first set bit. -/
def byteLeadingZerosAux (b : Nat) : List Nat → Nat
  | [] => 0
  | bit :: rest => if b &&& (1 <<< bit) = 0 then byteLeadingZerosAux b rest + 1 else 0

/-- Count of leading zeros in one byte (bits 7 down to 0). -/
def byteLeadingZeros (b : Nat) : Nat := byteLeadingZerosAux b [7, 6, 5, 4, 3, 2, 1, 0]

/-- Byte loop of `difficultyToZeroBits`: 8 per leading zero byte, then the
leading zeros of the first non-zero byte, then stop. -/
def zeroBitsLoop : List Nat → Nat
  | [] => 0
  | byte :: rest => if byte = 0 then 8 + zeroBitsLoop rest else byteLeadingZeros byte

/-- `difficultyToZeroBits` from `src/lib/mining/difficulty.ts`. -/
def difficultyToZeroBits (difficultyHex : Hex) : Nat :=
  zeroBitsLoop (hexToBytesAll difficultyHex)

/-- `hashStructureGood` from `src/lib/mining/difficulty.ts`. -/
def hashStructureGood (hashBytes : List Nat) (zeroBits : Nat) : Bool :=
  let fullBytes := zeroBits / 8
  let remainingBits := zeroBits % 8
  if hashBytes.length < fullBytes then false
  else if (hashBytes.take fullBytes).any (fun b => b != 0) then false
  else if remainingBits = 0 then true
  else if fullBytes < hashBytes.length then
    decide (hashBytes.getD fullBytes 0 &&& (0xFF <<< (8 - remainingBits)) = 0)
  else false

/-- `matchesDifficulty` from `src/lib/mining/difficulty.ts`.  A JS `throw` is
modelled as `Except.error`; the debug logging has no effect on the returned
value and is omitted.  `parseInt(hex, 16) >>> 0` is the exact value for 8 hex
chars, and `(hashPrefixBE | mask) >>> 0` is `Nat.lor` since both operands are
below `2^32`. -/
def matchesDifficulty (hashHex difficultyHex : Hex) : Except String Bool :=
  if hashHex.length < 8 then
    Except.error "Invalid hash length: expected at least 8 hex chars"
  else if difficultyHex.length ≠ 8 then
    Except.error "Invalid difficulty length: expected exactly 8 hex chars"
  else
    let hashBytes := hexToBytes hashHex
    let hashPrefixBE := hexVal (hashHex.take 8)
    let mask := hexVal (difficultyHex.take 8)
    let requiredZeroBits := difficultyToZeroBits difficultyHex
    let heistEnginePass := hashStructureGood hashBytes requiredZeroBits
    let shadowHarvesterPass := decide ((hashPrefixBE ||| mask) = mask)
    Except.ok (heistEnginePass && shadowHarvesterPass)

/-- Total wrapper for call sites inside the orchestrator, which only pass
well-formed 64-char hashes and 8-char difficulties (no throw occurs there). -/
def matchesDifficultyB (h d : Hex) : Bool := ((matchesDifficulty h d).toOption).getD false

/-- Spec side: the 8 bits of a byte, most significant first. -/
def byteBits (b : Nat) : List Bool := (List.range 8).map (fun i => b.testBit (7 - i))

/-- Spec side: big-endian bit string of a byte sequence. -/
def bitsOf (bytes : List Nat) : List Bool := (bytes.map byteBits).flatten

/-- Spec side: "the hash has at least `z` leading zero bits". -/
def hasLeadingZeroBits (bytes : List Nat) (z : Nat) : Prop :=
  (bitsOf bytes).take z = List.replicate z false

/-- Spec side: "the count of leading zero bits" of a byte sequence. -/
def leadingZeroBitCount (bytes : List Nat) : Nat :=
  ((bitsOf bytes).takeWhile (fun b => !b)).length

theorem hexToBytes_lt : ∀ (h : Hex), ∀ b ∈ hexToBytes h, b < 256
  | [], _, hb => by simp [hexToBytes] at hb
  | [_], _, hb => by simp [hexToBytes] at hb
  | a :: b :: rest, x, hb => by
      simp only [hexToBytes, List.mem_cons] at hb
      rcases hb with h1 | h2
      · have ha := a.isLt
        have hbv := b.isLt
        omega
      · exact hexToBytes_lt rest x h2

theorem hexToBytesAll_lt : ∀ (h : Hex), ∀ b ∈ hexToBytesAll h, b < 256
  | [], _, hb => by simp [hexToBytesAll] at hb
  | [a], _, hb => by
      simp only [hexToBytesAll, List.mem_singleton] at hb
      have := a.isLt
      omega
  | a :: b :: rest, x, hb => by
      simp only [hexToBytesAll, List.mem_cons] at hb
      rcases hb with h1 | h2
      · have ha := a.isLt
        have hbv := b.isLt
        omega
      · exact hexToBytesAll_lt rest x h2

theorem byteBits_eq_replicate_iff {b : Nat} (hb : b < 256) :
    (byteBits b = List.replicate 8 false) ↔ b = 0 := by
  have key : ∀ c : Fin 256, (byteBits c.val = List.replicate 8 false) ↔ c.val = 0 := by decide
  exact key ⟨b, hb⟩

theorem take_byteBits_eq_replicate_iff {b z : Nat} (hb : b < 256) (hz1 : 0 < z) (hz2 : z < 8) :
    ((byteBits b).take z = List.replicate z false) ↔ (b &&& (0xFF <<< (8 - z)) = 0) := by
  have key : ∀ (c : Fin 256) (w : Fin 8), 0 < w.val →
      (((byteBits c.val).take w.val = List.replicate w.val false) ↔
        (c.val &&& (0xFF <<< (8 - w.val)) = 0)) := by decide
  exact key ⟨b, hb⟩ ⟨z, hz2⟩ hz1

theorem takeWhile_byteBits_length {b : Nat} (hb : b < 256) :
    ((byteBits b).takeWhile (fun x => !x)).length = byteLeadingZeros b := by
  have key : ∀ c : Fin 256,
      ((byteBits c.val).takeWhile (fun x => !x)).length = byteLeadingZeros c.val := by decide
  exact key ⟨b, hb⟩

theorem byteLeadingZeros_lt {b : Nat} (hb : b < 256) (hb0 : b ≠ 0) : byteLeadingZeros b < 8 := by
  have key : ∀ c : Fin 256, c.val ≠ 0 → byteLeadingZeros c.val < 8 := by decide
  exact key ⟨b, hb⟩ hb0

theorem bitsOf_nil : bitsOf [] = [] := rfl

theorem bitsOf_cons (b : Nat) (bytes : List Nat) :
    bitsOf (b :: bytes) = byteBits b ++ bitsOf bytes := by
  simp [bitsOf]

theorem length_byteBits (b : Nat) : (byteBits b).length = 8 := by simp [byteBits]

theorem hashStructureGood_nil {z : Nat} (hz : z ≠ 0) : hashStructureGood [] z = false := by
  rcases Nat.lt_or_ge z 8 with h | h
  · have h8 : z / 8 = 0 := Nat.div_eq_of_lt h
    have hr : z % 8 = z := Nat.mod_eq_of_lt h
    simp [hashStructureGood, h8, hr, hz]
  · have h8 : 0 < z / 8 := Nat.div_pos h (by norm_num)
    simp only [hashStructureGood, List.length_nil]
    rw [if_pos h8]

theorem hashStructureGood_zero (bytes : List Nat) : hashStructureGood bytes 0 = true := by
  simp [hashStructureGood]

theorem hashStructureGood_cons_small (b : Nat) (bytes : List Nat) {z : Nat}
    (h1 : 0 < z) (h2 : z < 8) :
    hashStructureGood (b :: bytes) z = decide (b &&& (0xFF <<< (8 - z)) = 0) := by
  have h8 : z / 8 = 0 := Nat.div_eq_of_lt h2
  have hr : z % 8 = z := Nat.mod_eq_of_lt h2
  simp [hashStructureGood, h8, hr]
  omega

theorem hashStructureGood_cons_ge8 (b : Nat) (bytes : List Nat) {z : Nat} (h : 8 ≤ z) :
    hashStructureGood (b :: bytes) z = (decide (b = 0) && hashStructureGood bytes (z - 8)) := by
  have hq : z / 8 = (z - 8) / 8 + 1 := by omega
  have hm : z % 8 = (z - 8) % 8 := by omega
  by_cases hb : b = 0
  · subst hb
    simp only [hashStructureGood, hq, hm, List.length_cons, List.take_succ_cons,
      List.any_cons, List.getD_cons_succ, Nat.add_lt_add_iff_right, bne_self_eq_false,
      Bool.false_or]
    simp
  · have hbn : (b != 0) = true := by simp [hb]
    simp only [hashStructureGood, hq, hm, List.length_cons, List.take_succ_cons,
      List.any_cons, hbn, Bool.true_or, if_true]
    simp [hb, ite_self]

theorem hashStructureGood_iff :
    ∀ (bytes : List Nat), (∀ b ∈ bytes, b < 256) → ∀ z : Nat,
      (hashStructureGood bytes z = true ↔ (bitsOf bytes).take z = List.replicate z false)
  | [], _, z => by
      rcases Nat.eq_zero_or_pos z with hz | hz
      · subst hz; simp [hashStructureGood_zero]
      · rw [hashStructureGood_nil (by omega)]
        constructor
        · intro hcon; simp at hcon
        · intro hcon
          exfalso
          rw [bitsOf_nil, List.take_nil] at hcon
          have := congrArg List.length hcon
          simp at this
          omega
  | b :: bytes, hlt, z => by
      have hb : b < 256 := hlt b (List.mem_cons_self b bytes)
      have hrest : ∀ x ∈ bytes, x < 256 := fun x hx => hlt x (List.mem_cons_of_mem b hx)
      rcases Nat.lt_or_ge z 8 with h8 | h8
      · rcases Nat.eq_zero_or_pos z with hz | hz
        · subst hz; simp [hashStructureGood_zero]
        · rw [hashStructureGood_cons_small b bytes hz h8, bitsOf_cons]
          rw [List.take_append_of_le_length (by rw [length_byteBits]; omega)]
          rw [decide_eq_true_eq]
          exact (take_byteBits_eq_replicate_iff hb hz h8).symm
      · have htake : (byteBits b ++ bitsOf bytes).take z =
            byteBits b ++ (bitsOf bytes).take (z - 8) := by
          have h1 : z = (byteBits b).length + (z - 8) := by rw [length_byteBits]; omega
          conv_lhs => rw [h1]
          rw [List.take_append]
        have hrep : List.replicate z false =
            List.replicate 8 false ++ List.replicate (z - 8) false := by
          have h1 : z = 8 + (z - 8) := by omega
          conv_lhs => rw [h1]
          rw [List.replicate_add]
        rw [hashStructureGood_cons_ge8 b bytes h8, bitsOf_cons, htake, hrep,
          Bool.and_eq_true, decide_eq_true_eq]
        constructor
        · rintro ⟨hb0, hgood⟩
          rw [(byteBits_eq_replicate_iff hb).mpr hb0,
            (hashStructureGood_iff bytes hrest (z - 8)).mp hgood]
        · intro happ
          have hlen : (byteBits b).length = (List.replicate 8 false).length := by
            simp [length_byteBits]
          obtain ⟨h1, h2⟩ := List.append_inj happ hlen
          exact ⟨(byteBits_eq_replicate_iff hb).mp h1,
            (hashStructureGood_iff bytes hrest (z - 8)).mpr h2⟩


example :
    matchesDifficulty [0, 14, 15, 15, 15, 15, 15, 15] [0, 15, 15, 15, 15, 15, 15, 15] =
      Except.ok true := by decide

example :
    matchesDifficulty [1, 0, 0, 0, 0, 0, 0, 0] [0, 15, 15, 15, 15, 15, 15, 15] =
      Except.ok false := by decide

theorem zeroBitsLoop_eq : ∀ (bytes : List Nat), (∀ b ∈ bytes, b < 256) →
    zeroBitsLoop bytes = leadingZeroBitCount bytes
  | [], _ => by simp [zeroBitsLoop, leadingZeroBitCount, bitsOf_nil]
  | b :: bytes, hlt => by
      have hb : b < 256 := hlt b (List.mem_cons_self b bytes)
      have hrest : ∀ x ∈ bytes, x < 256 := fun x hx => hlt x (List.mem_cons_of_mem b hx)
      unfold leadingZeroBitCount
      rw [bitsOf_cons, List.takeWhile_append]
      by_cases hb0 : b = 0
      · subst hb0
        have hall : (byteBits 0).takeWhile (fun x => !x) = byteBits 0 := by decide
        rw [if_pos (by rw [hall])]
        rw [List.length_append, length_byteBits]
        have ih := zeroBitsLoop_eq bytes hrest
        unfold leadingZeroBitCount at ih
        simp [zeroBitsLoop, ih]
      · have hlen : ((byteBits b).takeWhile (fun x => !x)).length = byteLeadingZeros b :=
          takeWhile_byteBits_length hb
        have hne : ((byteBits b).takeWhile (fun x => !x)).length ≠ (byteBits b).length := by
          rw [hlen, length_byteBits]
          exact Nat.ne_of_lt (byteLeadingZeros_lt hb hb0)
        rw [if_neg hne, hlen]
        simp [zeroBitsLoop, hb0]

/-- `difficultyToZeroBits` computes exactly the spec-side count of leading zero
bits of the difficulty's big-endian byte representation. -/
theorem difficultyToZeroBits_eq_spec (d : Hex) :
    difficultyToZeroBits d = leadingZeroBitCount (hexToBytesAll d) :=
  zeroBitsLoop_eq (hexToBytesAll d) (hexToBytesAll_lt d)

/-- C1: for every hash hex string of at least 8 characters and every
8-hex-char difficulty, `matchesDifficulty` returns `true` iff both independent
checks hold: the byte decoding of the hash has at least `Z` leading zero bits,
where `Z` is the count of leading zero bits of the difficulty's big-endian
byte representation, and `(H32 | M32) = M32` for the first 32 bits `H32` of
the hash and the 32-bit big-endian value `M32` of the difficulty. -/
theorem matchesDifficulty_dual_iff (h d : Hex) (hh : 8 ≤ h.length) (hd : d.length = 8) :
    matchesDifficulty h d = Except.ok true ↔
      (hasLeadingZeroBits (hexToBytes h) (leadingZeroBitCount (hexToBytesAll d)) ∧
        (hexVal (h.take 8) ||| hexVal d) = hexVal d) := by
  have hd8 : d.take 8 = d := List.take_of_length_le (by omega)
  unfold matchesDifficulty
  rw [if_neg (by omega), if_neg (by omega), hd8]
  simp only [Except.ok.injEq, Bool.and_eq_true, decide_eq_true_eq]
  unfold hasLeadingZeroBits
  constructor
  · rintro ⟨h1, h2⟩
    refine ⟨?_, h2⟩
    have hgood := (hashStructureGood_iff (hexToBytes h) (hexToBytes_lt h)
      (difficultyToZeroBits d)).mp h1
    rw [difficultyToZeroBits_eq_spec d] at hgood
    exact hgood
  · rintro ⟨h1, h2⟩
    refine ⟨?_, h2⟩
    apply (hashStructureGood_iff (hexToBytes h) (hexToBytes_lt h) _).mpr
    rw [difficultyToZeroBits_eq_spec d]
    exact h1

/-- Witness for C1 at the concrete pair `hash = 0effffff`, `diff = 0fffffff`. -/
theorem matchesDifficulty_dual_iff_witness :
    matchesDifficulty [0, 14, 15, 15, 15, 15, 15, 15] [0, 15, 15, 15, 15, 15, 15, 15] =
        Except.ok true ↔
      (hasLeadingZeroBits (hexToBytes [0, 14, 15, 15, 15, 15, 15, 15])
          (leadingZeroBitCount (hexToBytesAll [0, 15, 15, 15, 15, 15, 15, 15])) ∧
        (hexVal (([0, 14, 15, 15, 15, 15, 15, 15] : Hex).take 8) |||
            hexVal [0, 15, 15, 15, 15, 15, 15, 15]) =
          hexVal [0, 15, 15, 15, 15, 15, 15, 15]) :=
  matchesDifficulty_dual_iff [0, 14, 15, 15, 15, 15, 15, 15] [0, 15, 15, 15, 15, 15, 15, 15]
    (by decide) (by decide)

/-- C10: `matchesDifficulty` throws iff the hash has fewer than 8 characters or
the difficulty's length is not exactly 8; on every other input it returns a
boolean without throwing. -/
theorem matchesDifficulty_throws_iff (h d : Hex) :
    ((∃ msg, matchesDifficulty h d = Except.error msg) ↔ (h.length < 8 ∨ d.length ≠ 8)) ∧
      (¬(h.length < 8 ∨ d.length ≠ 8) → ∃ b, matchesDifficulty h d = Except.ok b) := by
  unfold matchesDifficulty
  by_cases h1 : h.length < 8
  · rw [if_pos h1]
    refine ⟨⟨fun _ => Or.inl h1, fun _ => ⟨_, rfl⟩⟩, fun hcon => absurd (Or.inl h1) hcon⟩
  · rw [if_neg h1]
    by_cases h2 : d.length ≠ 8
    · rw [if_pos h2]
      refine ⟨⟨fun _ => Or.inr h2, fun _ => ⟨_, rfl⟩⟩, fun hcon => absurd (Or.inr h2) hcon⟩
    · rw [if_neg h2]
      constructor
      · constructor
        · rintro ⟨msg, hmsg⟩
          exact absurd hmsg (by simp)
        · intro hor
          rcases hor with hc | hc
          · exact absurd hc h1
          · exact absurd hc h2
      · intro _
        exact ⟨_, rfl⟩

/-! ### Worker nonce partitioning, from `mineForAddress` in the orchestrator -/

/-- `NONCE_RANGE_SIZE` from `mineForAddress`: 1 billion nonces per worker. -/
def NONCE_RANGE_SIZE : Nat := 1000000000

/-- `BATCH_SIZE` from `mineForAddress`. -/
def BATCH_SIZE : Nat := 300

/-- `nonceStart = workerId * NONCE_RANGE_SIZE`. -/
def nonceStart (workerId : Nat) : Nat := workerId * NONCE_RANGE_SIZE

/-- `nonceEnd = nonceStart + NONCE_RANGE_SIZE`. -/
def nonceEnd (workerId : Nat) : Nat := nonceStart workerId + NONCE_RANGE_SIZE

/-- One batch of nonce values: the generation loop pushes `currentNonce + i`
for `i < BATCH_SIZE` while `currentNonce + i < nonceEnd`. -/
def batchNonces (currentNonce nEnd : Nat) : List Nat :=
  ((List.range BATCH_SIZE).takeWhile (fun i => decide (currentNonce + i < nEnd))).map
    (fun i => currentNonce + i)

theorem takeWhile_range'_lt (cur nEnd : Nat) :
    ∀ (n s : Nat),
      (((List.range' s n).takeWhile (fun i => decide (cur + i < nEnd))).map
          (fun i => cur + i)) =
        List.range' (cur + s) (min n (nEnd - cur - s))
  | 0, s => by simp
  | n + 1, s => by
      rw [List.range'_succ]
      by_cases h : cur + s < nEnd
      · rw [List.takeWhile_cons_of_pos (by simp [h]), List.map_cons]
        rw [takeWhile_range'_lt cur nEnd n (s + 1)]
        have hmin : min (n + 1) (nEnd - cur - s) = min n (nEnd - cur - (s + 1)) + 1 := by
          omega
        rw [hmin, List.range'_succ]
        have hs : cur + (s + 1) = cur + s + 1 := by omega
        rw [hs]
      · rw [List.takeWhile_cons_of_neg (by simp [h])]
        have h0 : nEnd - cur - s = 0 := by omega
        simp [h0]

theorem batchNonces_eq (cur nEnd : Nat) :
    batchNonces cur nEnd = List.range' cur (min BATCH_SIZE (nEnd - cur)) := by
  unfold batchNonces
  rw [List.range_eq_range', takeWhile_range'_lt cur nEnd BATCH_SIZE 0]
  simp

/-- The nonce sequence emitted by the worker batch loop, absent external
interruption: while `currentNonce < nonceEnd`, build a batch, then advance the
cursor by the batch length (`currentNonce += batchData.length`).  An empty
batch breaks the loop (which with no interruption only happens at the window
end). -/
def workerNoncesFrom (cur nEnd : Nat) : List Nat :=
  if h : cur < nEnd then
    batchNonces cur nEnd ++ workerNoncesFrom (cur + (batchNonces cur nEnd).length) nEnd
  else []
termination_by nEnd - cur
decreasing_by
  rw [batchNonces_eq]
  rw [List.length_range']
  unfold BATCH_SIZE
  omega

theorem workerNoncesFrom_eq_aux : ∀ (fuel cur nEnd : Nat), nEnd - cur ≤ fuel →
    workerNoncesFrom cur nEnd = List.range' cur (nEnd - cur)
  | 0, cur, nEnd, hle => by
      have h : ¬ cur < nEnd := by omega
      unfold workerNoncesFrom
      rw [dif_neg h]
      have h0 : nEnd - cur = 0 := by omega
      rw [h0, List.range'_zero]
  | fuel + 1, cur, nEnd, hle => by
      by_cases h : cur < nEnd
      · unfold workerNoncesFrom
        rw [dif_pos h, batchNonces_eq, List.length_range']
        have hm1 : 1 ≤ min BATCH_SIZE (nEnd - cur) ∧ min BATCH_SIZE (nEnd - cur) ≤ nEnd - cur := by
          unfold BATCH_SIZE
          omega
        rw [workerNoncesFrom_eq_aux fuel (cur + min BATCH_SIZE (nEnd - cur)) nEnd (by omega)]
        have harith : nEnd - (cur + min BATCH_SIZE (nEnd - cur)) =
            (nEnd - cur) - min BATCH_SIZE (nEnd - cur) := by omega
        rw [harith, List.range'_append_1]
        congr 1
        omega
      · unfold workerNoncesFrom
        rw [dif_neg h]
        have h0 : nEnd - cur = 0 := by omega
        rw [h0, List.range'_zero]

/-- Full nonce stream of worker `workerId` over its window. -/
def workerNonces (workerId : Nat) : List Nat :=
  workerNoncesFrom (nonceStart workerId) (nonceEnd workerId)

theorem workerNonces_eq (w : Nat) :
    workerNonces w = List.range' (w * NONCE_RANGE_SIZE) NONCE_RANGE_SIZE := by
  unfold workerNonces
  rw [workerNoncesFrom_eq_aux (nonceEnd w - nonceStart w) _ _ (le_refl _)]
  simp only [nonceEnd, nonceStart]
  congr 1
  set a := w * NONCE_RANGE_SIZE
  omega

/-- C6 counterexample: the claim says the cursor of worker `w` starts at
`w * 2^30`, so worker 1's first nonce would be `2^30 = 1073741824`; in the code
it is `1 * NONCE_RANGE_SIZE = 1000000000`. -/
theorem workerNonces_start_ne_pow2 :
    ¬ ((workerNonces 1).head? = some (1 * 2 ^ 30)) := by
  rw [workerNonces_eq, List.head?_range']
  rw [if_neg (by unfold NONCE_RANGE_SIZE; omega)]
  intro hcon
  rw [Option.some_inj] at hcon
  revert hcon
  decide

/-- C6 (amended): worker `w`'s nonce cursor starts at `w * N` where
`N = NONCE_RANGE_SIZE = 10^9` (not `2^30`), and the worker iterates nonces
sequentially within its window of size `N`. -/
theorem workerNonces_sequential_window (w : Nat) :
    workerNonces w = List.range' (w * NONCE_RANGE_SIZE) NONCE_RANGE_SIZE ∧
      NONCE_RANGE_SIZE = 1000000000 :=
  ⟨workerNonces_eq w, rfl⟩

/-- C7: for two distinct workers of a cohort, the emitted nonce ranges are
disjoint: no nonce value is emitted by both. -/
theorem workerNonces_disjoint (w1 w2 : Nat) (hne : w1 ≠ w2) :
    ∀ n, n ∈ workerNonces w1 → n ∉ workerNonces w2 := by
  intro n h1 h2
  rw [workerNonces_eq, List.mem_range'_1] at h1 h2
  rcases Nat.lt_or_ge w1 w2 with hlt | hge
  · have hstep : w1 * NONCE_RANGE_SIZE + NONCE_RANGE_SIZE ≤ w2 * NONCE_RANGE_SIZE := by
      calc w1 * NONCE_RANGE_SIZE + NONCE_RANGE_SIZE = (w1 + 1) * NONCE_RANGE_SIZE := by ring
        _ ≤ w2 * NONCE_RANGE_SIZE := Nat.mul_le_mul_right NONCE_RANGE_SIZE hlt
    omega
  · have hlt2 : w2 < w1 := by omega
    have hstep : w2 * NONCE_RANGE_SIZE + NONCE_RANGE_SIZE ≤ w1 * NONCE_RANGE_SIZE := by
      calc w2 * NONCE_RANGE_SIZE + NONCE_RANGE_SIZE = (w2 + 1) * NONCE_RANGE_SIZE := by ring
        _ ≤ w1 * NONCE_RANGE_SIZE := Nat.mul_le_mul_right NONCE_RANGE_SIZE hlt2
    omega

/-- Witness for C7 at workers 0 and 1 and nonce 5 (emitted by worker 0). -/
theorem workerNonces_disjoint_witness : (5 : Nat) ∉ workerNonces 1 :=
  workerNonces_disjoint 0 1 (by decide) 5
    (by rw [workerNonces_eq, List.mem_range'_1]; unfold NONCE_RANGE_SIZE; omega)

/-! ### Orchestrator state and the submission gate (MiningOrchestrator) -/

/-- A challenge record, with the fields the mining path reads. -/
structure Challenge where
  challenge_id : String
  difficulty : Hex
  no_pre_mine : String
  no_pre_mine_hour : Int
  latest_submission : String
deriving DecidableEq

/-- A receipt, as written by `submitSolution` (`logReceipt`) and read back by
the replay (`readReceipts`).  The wall-clock timestamp and the opaque crypto
receipt influence no claim and are omitted; a missing hash in an on-disk
record is represented by the empty hex string. -/
structure Receipt where
  address : String
  addressIndex : Int
  challenge_id : String
  nonce : String
  hash : Hex
  isDevFee : Bool
deriving DecidableEq

/-- An error record, as written by `logError` on a failed submission. -/
structure ErrorRecord where
  address : String
  addressIndex : Int
  challenge_id : String
  nonce : String
  hash : Hex
  errMsg : String
  response : Option String
deriving DecidableEq

/-- The JS string key `address + ':' + challengeId`, modelled as the pair. -/
abbrev SubmissionKey := String × String

/-- JS `Set.add`: insert without duplication. -/
def insertElem {α : Type} [DecidableEq α] (x : α) (l : List α) : List α :=
  if x ∈ l then l else x :: l

/-- JS `Set.delete` / `Map.delete`. -/
def eraseElem {α : Type} [DecidableEq α] (x : α) (l : List α) : List α :=
  l.filter (fun y => decide (y ≠ x))

/-- JS `map.get(key) || 0` on the failure-counter map. -/
def getFailures : List (SubmissionKey × Nat) → SubmissionKey → Nat
  | [], _ => 0
  | p :: rest, k => if p.1 = k then p.2 else getFailures rest k

/-- JS `map.set(key, v)` on the failure-counter map. -/
def setFailures (m : List (SubmissionKey × Nat)) (k : SubmissionKey) (v : Nat) :
    List (SubmissionKey × Nat) :=
  (k, v) :: m.filter (fun p => decide (p.1 ≠ k))

/-- JS `map.delete(key)` on the failure-counter map. -/
def deleteFailures (m : List (SubmissionKey × Nat)) (k : SubmissionKey) :
    List (SubmissionKey × Nat) :=
  m.filter (fun p => decide (p.1 ≠ k))

/-- The orchestrator's mutable state, restricted to the fields the claims are
about.  `solvedAddressChallenges` (JS: map address → set of challenge ids) is
modelled as the set of (address, challenge id) pairs; `submittingAddresses`,
`pausedAddresses` and `addressSubmissionFailures` use the same pair in place
of the JS string key `address:challengeId`.  The receipt and error logs model
the append-only files behind `receiptsLogger`. -/
structure OrchestratorState where
  submittedSolutions : List Hex
  solvedAddressChallenges : List SubmissionKey
  submittingAddresses : List SubmissionKey
  pausedAddresses : List SubmissionKey
  stoppedWorkers : List Nat
  addressSubmissionFailures : List (SubmissionKey × Nat)
  receiptLog : List Receipt
  errorLog : List ErrorRecord
  solutionsFound : Nat
  userSolutionsCount : Nat
  currentChallengeId : Option String
  currentChallenge : Option Challenge
deriving DecidableEq

/-- Fresh orchestrator state (all sets empty, counters zero). -/
def initialState : OrchestratorState :=
  ⟨[], [], [], [], [], [], [], [], 0, 0, none, none⟩

/-- A solution candidate inside the worker scan loop: the worker's identity,
the frozen deep-copied challenge captured at worker start, and the found
nonce / preimage / hash triple. -/
structure Candidate where
  addr : String
  addrIndex : Int
  workerId : Nat
  isDevFee : Bool
  challengeId : String
  challenge : Challenge
  nonce : String
  preimage : String
  hash : Hex
deriving DecidableEq

/-- Outcome of the `axios.post` in `submitSolution`: `ok` for HTTP 2xx
(acceptance, with optional crypto receipt); `err` for everything the catch
block sees (the explicit throw on a non-2xx status, a 5xx/network axios
throw, or a timeout), carrying the message and response data that end up in
the ErrorRecord. -/
inductive NetResponse where
  | ok (cryptoReceipt : Option String)
  | err (msg : String) (response : Option String)
deriving DecidableEq

/-- How one candidate is disposed of by the scan/submission sequence. -/
inductive GateOutcome where
  | noSolution
  | duplicate
  | lockHeld
  | rotationDiscard
  | staleDiscard
  | diffChangeDiscard
  | accepted
  | rejected
deriving DecidableEq

/-- `submitSolution`: the accept path increments `solutionsFound`, increments
`userSolutionsCount` for non-dev-fee solutions, decides whether the
opportunistic dev-fee check fires (`expectedDevFees > currentDevFees`, where
`devFeeDenom` is the dev-fee manager's configured ratio and `devFeeCount` its
recorded dev-fee solution count), and appends a Receipt; the failure path
appends an ErrorRecord and rethrows.  Returns
(state, submission succeeded, dev-fee check triggered). -/
def submitSolutionStep (net : NetResponse) (devFeeDenom devFeeCount : Nat)
    (s : OrchestratorState) (c : Candidate) : OrchestratorState × Bool × Bool :=
  match net with
  | NetResponse.ok _ =>
      let s1 := { s with solutionsFound := s.solutionsFound + 1 }
      let newUserCount :=
        if c.isDevFee then s1.userSolutionsCount else s1.userSolutionsCount + 1
      let s2 := { s1 with userSolutionsCount := newUserCount }
      let triggered :=
        if c.isDevFee then false else decide (newUserCount / devFeeDenom > devFeeCount)
      let s3 := { s2 with receiptLog := s2.receiptLog ++
        [⟨c.addr, c.addrIndex, c.challengeId, c.nonce, c.hash, c.isDevFee⟩] }
      (s3, true, triggered)
  | NetResponse.err msg resp =>
      ({ s with errorLog := s.errorLog ++
        [⟨c.addr, c.addrIndex, c.challengeId, c.nonce, c.hash, msg, resp⟩] }, false, false)

/-- The submit phase of the gate (the `try`/`catch`/`finally` around
`submitSolution` in `mineForAddress`): on success mark the pair solved, then
always release the lock; on success also clear the pause and the failure
counter; on failure increment the failure counter, release the pause, remove
the hash from the dedup set so another nonce can be tried, and clear
`stoppedWorkers` so the siblings resume. -/
def submitPhase (net : NetResponse) (devFeeDenom devFeeCount : Nat)
    (s : OrchestratorState) (c : Candidate) : OrchestratorState × GateOutcome :=
  let key : SubmissionKey := (c.addr, c.challengeId)
  match submitSolutionStep net devFeeDenom devFeeCount s c with
  | (s5, success, _) =>
    if success then
      let s6 := { s5 with
        solvedAddressChallenges := insertElem key s5.solvedAddressChallenges }
      ({ s6 with
          submittingAddresses := eraseElem key s6.submittingAddresses,
          pausedAddresses := eraseElem key s6.pausedAddresses,
          addressSubmissionFailures := deleteFailures s6.addressSubmissionFailures key },
        GateOutcome.accepted)
    else
      let newFailures :=
        setFailures s5.addressSubmissionFailures key
          (getFailures s5.addressSubmissionFailures key + 1)
      let s6 := { s5 with addressSubmissionFailures := newFailures }
      ({ s6 with
          submittingAddresses := eraseElem key s6.submittingAddresses,
          pausedAddresses := eraseElem key s6.pausedAddresses,
          submittedSolutions := eraseElem c.hash s6.submittedSolutions,
          stoppedWorkers := ([] : List Nat) },
        GateOutcome.rejected)

/-- The candidate-disposition sequence of the worker scan loop (solution
branch of `mineForAddress`): difficulty test, dedup against
`submittedSolutions`, test-and-set of `submittingAddresses`, stopping all
sibling workers, pausing the (address, challenge) pair, pre-inserting the
hash into the dedup set, the rotation re-check, the freshness revalidation
against the live challenge (re-serialize the preimage with the live fields
via `buildPreimage` and re-hash that single preimage via `hashFn` when
`latest_submission`, `no_pre_mine_hour` or `no_pre_mine` drifted), the
difficulty-change revalidation, then `submitPhase`.  `hashFn` models
`hashEngine.hashBatchAsync` on a one-element batch, `buildPreimage` the
preimage serializer, `workerThreads` the pool size, and `net` the network's
answer if a submission is made. -/
def gateStep (buildPreimage : String → String → Challenge → String)
    (hashFn : String → Hex) (net : NetResponse) (workerThreads : Nat)
    (devFeeDenom devFeeCount : Nat) (s : OrchestratorState) (c : Candidate) :
    OrchestratorState × GateOutcome :=
  let key : SubmissionKey := (c.addr, c.challengeId)
  if matchesDifficultyB c.hash c.challenge.difficulty = false then
    (s, GateOutcome.noSolution)
  else if c.hash ∈ s.submittedSolutions then (s, GateOutcome.duplicate)
  else if key ∈ s.submittingAddresses then (s, GateOutcome.lockHeld)
  else
    let s1 := { s with submittingAddresses := insertElem key s.submittingAddresses }
    let newStopped :=
      (List.range workerThreads).foldl
        (fun acc i => if i ≠ c.workerId then insertElem i acc else acc) s1.stoppedWorkers
    let s2 := { s1 with stoppedWorkers := newStopped }
    let s3 := { s2 with pausedAddresses := insertElem key s2.pausedAddresses }
    let s4 := { s3 with submittedSolutions := insertElem c.hash s3.submittedSolutions }
    if s4.currentChallengeId ≠ some c.challengeId then
      ({ s4 with
          pausedAddresses := eraseElem key s4.pausedAddresses,
          submittingAddresses := eraseElem key s4.submittingAddresses },
        GateOutcome.rotationDiscard)
    else
      match s4.currentChallenge with
      | none => submitPhase net devFeeDenom devFeeCount s4 c
      | some live =>
        if c.challenge.latest_submission ≠ live.latest_submission ∨
            c.challenge.no_pre_mine_hour ≠ live.no_pre_mine_hour ∨
            c.challenge.no_pre_mine ≠ live.no_pre_mine then
          if matchesDifficultyB (hashFn (buildPreimage c.nonce c.addr live))
              live.difficulty = false then
            ({ s4 with
                pausedAddresses := eraseElem key s4.pausedAddresses,
                submittingAddresses := eraseElem key s4.submittingAddresses },
              GateOutcome.staleDiscard)
          else if live.difficulty ≠ c.challenge.difficulty then
            if matchesDifficultyB c.hash live.difficulty = false then
              ({ s4 with
                  pausedAddresses := eraseElem key s4.pausedAddresses,
                  submittingAddresses := eraseElem key s4.submittingAddresses,
                  solvedAddressChallenges := eraseElem key s4.solvedAddressChallenges },
                GateOutcome.diffChangeDiscard)
            else submitPhase net devFeeDenom devFeeCount s4 c
          else submitPhase net devFeeDenom devFeeCount s4 c
        else if live.difficulty ≠ c.challenge.difficulty then
          if matchesDifficultyB c.hash live.difficulty = false then
            ({ s4 with
                pausedAddresses := eraseElem key s4.pausedAddresses,
                submittingAddresses := eraseElem key s4.submittingAddresses,
                solvedAddressChallenges := eraseElem key s4.solvedAddressChallenges },
              GateOutcome.diffChangeDiscard)
          else submitPhase net devFeeDenom devFeeCount s4 c
        else submitPhase net devFeeDenom devFeeCount s4 c

/-- One receipt's effect during the startup replay (`loadSubmittedSolutions`
loop bodies, identical for user and dev-fee receipts): add the hash to the
dedup set when present (JS truthiness — an absent/empty hash is skipped), and
record (address, challenge_id) as solved. -/
def processReceipt (s : OrchestratorState) (r : Receipt) : OrchestratorState :=
  let s1 :=
    if r.hash ≠ [] then
      { s with submittedSolutions := insertElem r.hash s.submittedSolutions }
    else s
  { s1 with solvedAddressChallenges :=
      insertElem (r.address, r.challenge_id) s1.solvedAddressChallenges }

/-- `loadSubmittedSolutions`: replay of the receipt log at startup.
`userSolutionsCount` is set to the number of non-dev-fee receipts, then the
user receipts and the dev-fee receipts are processed in turn. -/
def loadSubmittedSolutions (receipts : List Receipt) (s : OrchestratorState) :
    OrchestratorState :=
  let userReceipts := receipts.filter (fun r => !r.isDevFee)
  let devFeeReceipts := receipts.filter (fun r => r.isDevFee)
  let s1 := { s with userSolutionsCount := userReceipts.length }
  let s2 := userReceipts.foldl processReceipt s1
  devFeeReceipts.foldl processReceipt s2

/-- `loadChallengeState`: on (re)loading a challenge the orchestrator sets
`solutionsFound` to the number of receipts recorded for that challenge.  (The
restoration of `addressesProcessedCurrentChallenge` touches no field any
claim is about and is omitted.) -/
def loadChallengeState (receipts : List Receipt) (challengeId : String)
    (s : OrchestratorState) : OrchestratorState :=
  { s with solutionsFound :=
      (receipts.filter (fun r => decide (r.challenge_id = challengeId))).length }

/-- The `solutionsFound`-relevant effect of `start()`:
`this.solutionsFound = 0`. -/
def startResetCounters (s : OrchestratorState) : OrchestratorState :=
  { s with solutionsFound := 0 }

/-- `checkAndMineDevFee`: guards (dev-fee enabled, valid address pool, an
active challenge), then `expectedDevFees = ⌊userSolutionsCount /
devFeeDenom⌋` and `devFeesNeeded = expectedDevFees - totalDevFeeSolutions`;
one dev-fee cohort attempt is run per unit of `devFeesNeeded` when it is
positive, otherwise none.  `devFeeDenom` is the dev-fee manager's configured
ratio (a positive integer; with ratio 0 the JS floor-division yields
Infinity, outside this model).  Returns the number of loop iterations
(cohort attempts). -/
def checkAndMineDevFeeCohorts (enabled poolValid challengeActive : Bool)
    (userSolutionsCount devFeeDenom totalDevFeeSolutions : Nat) : Nat :=
  if enabled = false then 0
  else if poolValid = false then 0
  else if challengeActive = false then 0
  else
    let expectedDevFees : Int := ((userSolutionsCount / devFeeDenom : Nat) : Int)
    let devFeesNeeded : Int := expectedDevFees - (totalDevFeeSolutions : Int)
    if devFeesNeeded > 0 then devFeesNeeded.toNat else 0

/-- One iteration of the dev-fee loop: the drawn address is mined unless the
pool fails to produce one, the address is malformed, or it collides with an
already-solved (address, challenge) pair even after one forced refetch.
`first`/`second` are the pool's answers (`none` models a fetch error). -/
def devFeeIterationAddress (solved : List SubmissionKey) (challengeId : String)
    (first second : Option String) : Option String :=
  match first with
  | none => none
  | some a =>
    if (a.startsWith "addr1" || a.startsWith "tnight1") = false then none
    else if (a, challengeId) ∈ solved then
      match second with
      | none => none
      | some b =>
        if (b.startsWith "addr1" || b.startsWith "tnight1") = false then none
        else if (b, challengeId) ∈ solved then none
        else some b
    else some a

/-! ### Set-helper lemmas -/

theorem mem_insertElem {α : Type} [DecidableEq α] (x y : α) (l : List α) :
    x ∈ insertElem y l ↔ x = y ∨ x ∈ l := by
  unfold insertElem
  split
  · rename_i hy
    constructor
    · exact Or.inr
    · rintro (rfl | hx)
      · exact hy
      · assumption
  · simp [List.mem_cons]

theorem not_mem_eraseElem_self {α : Type} [DecidableEq α] (x : α) (l : List α) :
    x ∉ eraseElem x l := by
  unfold eraseElem
  simp [List.mem_filter]

theorem mem_eraseElem {α : Type} [DecidableEq α] (x y : α) (l : List α) :
    x ∈ eraseElem y l ↔ x ∈ l ∧ x ≠ y := by
  unfold eraseElem
  simp [List.mem_filter]

theorem getFailures_setFailures (m : List (SubmissionKey × Nat)) (k : SubmissionKey) (v : Nat) :
    getFailures (setFailures m k v) k = v := by
  simp [getFailures, setFailures]

/-- The state after the gate has acquired the lock, stopped the siblings,
paused the pair and pre-inserted the hash (the `s1`–`s4` chain in the code).
-/
def gateAcquireState (workerThreads : Nat) (s : OrchestratorState) (c : Candidate) :
    OrchestratorState :=
  let newStopped := (List.range workerThreads).foldl
    (fun acc i => if i ≠ c.workerId then insertElem i acc else acc) s.stoppedWorkers
  { s with
    submittingAddresses := insertElem (c.addr, c.challengeId) s.submittingAddresses,
    stoppedWorkers := newStopped,
    pausedAddresses := insertElem (c.addr, c.challengeId) s.pausedAddresses,
    submittedSolutions := insertElem c.hash s.submittedSolutions }

theorem submitPhase_not_submitting (net : NetResponse) (dn dc : Nat)
    (s : OrchestratorState) (c : Candidate) :
    (c.addr, c.challengeId) ∉ (submitPhase net dn dc s c).1.submittingAddresses := by
  cases net <;>
    simp [submitPhase, submitSolutionStep, not_mem_eraseElem_self]

theorem gateStep_reaches_submit (bp : String → String → Challenge → String)
    (hf : String → Hex) (net : NetResponse) (W dn dc : Nat)
    (s : OrchestratorState) (c : Candidate) (live : Challenge)
    (h1 : matchesDifficultyB c.hash c.challenge.difficulty = true)
    (h2 : c.hash ∉ s.submittedSolutions)
    (h3 : (c.addr, c.challengeId) ∉ s.submittingAddresses)
    (h4 : s.currentChallengeId = some c.challengeId)
    (h5 : s.currentChallenge = some live)
    (h6 : (c.challenge.latest_submission ≠ live.latest_submission ∨
            c.challenge.no_pre_mine_hour ≠ live.no_pre_mine_hour ∨
            c.challenge.no_pre_mine ≠ live.no_pre_mine) →
          matchesDifficultyB (hf (bp c.nonce c.addr live)) live.difficulty = true)
    (h7 : live.difficulty ≠ c.challenge.difficulty →
          matchesDifficultyB c.hash live.difficulty = true) :
    gateStep bp hf net W dn dc s c = submitPhase net dn dc (gateAcquireState W s c) c := by
  by_cases hchg : (c.challenge.latest_submission ≠ live.latest_submission ∨
      c.challenge.no_pre_mine_hour ≠ live.no_pre_mine_hour ∨
      c.challenge.no_pre_mine ≠ live.no_pre_mine)
  · by_cases hdiff : live.difficulty ≠ c.challenge.difficulty
    · simp [gateStep, gateAcquireState, h1, h2, h3, h4, h5, hchg, h6 hchg, hdiff, h7 hdiff]
    · simp [gateStep, gateAcquireState, h1, h2, h3, h4, h5, hchg, h6 hchg, hdiff]
  · by_cases hdiff : live.difficulty ≠ c.challenge.difficulty
    · simp [gateStep, gateAcquireState, h1, h2, h3, h4, h5, hchg, hdiff, h7 hdiff]
    · simp [gateStep, gateAcquireState, h1, h2, h3, h4, h5, hchg, hdiff]

theorem gateStep_stale_eq (bp : String → String → Challenge → String)
    (hf : String → Hex) (net : NetResponse) (W dn dc : Nat)
    (s : OrchestratorState) (c : Candidate) (live : Challenge)
    (h1 : matchesDifficultyB c.hash c.challenge.difficulty = true)
    (h2 : c.hash ∉ s.submittedSolutions)
    (h3 : (c.addr, c.challengeId) ∉ s.submittingAddresses)
    (h4 : s.currentChallengeId = some c.challengeId)
    (h5 : s.currentChallenge = some live)
    (hchg : c.challenge.latest_submission ≠ live.latest_submission ∨
            c.challenge.no_pre_mine_hour ≠ live.no_pre_mine_hour ∨
            c.challenge.no_pre_mine ≠ live.no_pre_mine)
    (hbad : matchesDifficultyB (hf (bp c.nonce c.addr live)) live.difficulty = false) :
    gateStep bp hf net W dn dc s c =
      ({ gateAcquireState W s c with
          pausedAddresses :=
            eraseElem (c.addr, c.challengeId) (gateAcquireState W s c).pausedAddresses,
          submittingAddresses :=
            eraseElem (c.addr, c.challengeId) (gateAcquireState W s c).submittingAddresses },
        GateOutcome.staleDiscard) := by
  simp [gateStep, gateAcquireState, h1, h2, h3, h4, h5, hchg, hbad]

/-- C2: in the submission gate, when the frozen challenge snapshot differs
from the live challenge in `latest_submission`, `no_pre_mine_hour` or
`no_pre_mine`, the preimage is re-serialized with the live fields and that
single preimage is re-hashed; the candidate is submitted only if the re-hash
satisfies the dual predicate against the live difficulty, and otherwise the
submission lock is released and mining continues with no network submission
(no receipt and no error record are produced). -/
theorem gateStep_freshness_revalidation (bp : String → String → Challenge → String)
    (hf : String → Hex) (net : NetResponse) (W dn dc : Nat)
    (s : OrchestratorState) (c : Candidate) (live : Challenge)
    (h1 : matchesDifficultyB c.hash c.challenge.difficulty = true)
    (h2 : c.hash ∉ s.submittedSolutions)
    (h3 : (c.addr, c.challengeId) ∉ s.submittingAddresses)
    (h4 : s.currentChallengeId = some c.challengeId)
    (h5 : s.currentChallenge = some live)
    (hchg : c.challenge.latest_submission ≠ live.latest_submission ∨
            c.challenge.no_pre_mine_hour ≠ live.no_pre_mine_hour ∨
            c.challenge.no_pre_mine ≠ live.no_pre_mine) :
    ((matchesDifficultyB (hf (bp c.nonce c.addr live)) live.difficulty = false →
        (gateStep bp hf net W dn dc s c).2 = GateOutcome.staleDiscard ∧
        (c.addr, c.challengeId) ∉ (gateStep bp hf net W dn dc s c).1.submittingAddresses ∧
        (gateStep bp hf net W dn dc s c).1.receiptLog = s.receiptLog ∧
        (gateStep bp hf net W dn dc s c).1.errorLog = s.errorLog) ∧
      (((gateStep bp hf net W dn dc s c).2 = GateOutcome.accepted ∨
          (gateStep bp hf net W dn dc s c).2 = GateOutcome.rejected) →
        matchesDifficultyB (hf (bp c.nonce c.addr live)) live.difficulty = true)) := by
  by_cases hre : matchesDifficultyB (hf (bp c.nonce c.addr live)) live.difficulty = false
  · have heq := gateStep_stale_eq bp hf net W dn dc s c live h1 h2 h3 h4 h5 hchg hre
    constructor
    · intro _
      rw [heq]
      refine ⟨rfl, not_mem_eraseElem_self _ _, ?_, ?_⟩ <;> simp [gateAcquireState]
    · intro hor
      rw [heq] at hor
      rcases hor with hcon | hcon <;> simp at hcon
  · have hre' : matchesDifficultyB (hf (bp c.nonce c.addr live)) live.difficulty = true := by
      revert hre
      cases matchesDifficultyB (hf (bp c.nonce c.addr live)) live.difficulty <;> simp
    exact ⟨fun hcon => absurd hcon hre, fun _ => hre'⟩

/-- C4: on every exit path of the submission sequence other than the guards
that never acquired the lock (no-solution, duplicate, lock already held) —
that is, on network accept, reject/error, stale-challenge self-discard,
difficulty-change discard and rotation-detected-before-submit — the
submission lock `submitting[(address, challenge_id)]` is released. -/
theorem gateStep_always_releases_lock (bp : String → String → Challenge → String)
    (hf : String → Hex) (net : NetResponse) (W dn dc : Nat)
    (s : OrchestratorState) (c : Candidate)
    (hns : (gateStep bp hf net W dn dc s c).2 ≠ GateOutcome.noSolution)
    (hdup : (gateStep bp hf net W dn dc s c).2 ≠ GateOutcome.duplicate)
    (hheld : (gateStep bp hf net W dn dc s c).2 ≠ GateOutcome.lockHeld) :
    (c.addr, c.challengeId) ∉ (gateStep bp hf net W dn dc s c).1.submittingAddresses := by
  by_cases h1 : matchesDifficultyB c.hash c.challenge.difficulty = false
  · exact absurd (by simp [gateStep, h1]) hns
  · by_cases h2 : c.hash ∈ s.submittedSolutions
    · exact absurd (by simp [gateStep, h1, h2]) hdup
    · by_cases h3 : (c.addr, c.challengeId) ∈ s.submittingAddresses
      · exact absurd (by simp [gateStep, h1, h2, h3]) hheld
      · by_cases h4 : s.currentChallengeId = some c.challengeId
        · cases hc : s.currentChallenge with
          | none => simp [gateStep, h1, h2, h3, h4, hc, submitPhase_not_submitting]
          | some live =>
            by_cases hchg : (c.challenge.latest_submission ≠ live.latest_submission ∨
                c.challenge.no_pre_mine_hour ≠ live.no_pre_mine_hour ∨
                c.challenge.no_pre_mine ≠ live.no_pre_mine)
            · by_cases hbad :
                  matchesDifficultyB (hf (bp c.nonce c.addr live)) live.difficulty = false
              · simp [gateStep, h1, h2, h3, h4, hc, hchg, hbad, not_mem_eraseElem_self]
              · by_cases hdiff : live.difficulty ≠ c.challenge.difficulty
                · by_cases hv : matchesDifficultyB c.hash live.difficulty = false
                  · simp [gateStep, h1, h2, h3, h4, hc, hchg, hbad, hdiff, hv,
                      not_mem_eraseElem_self]
                  · simp [gateStep, h1, h2, h3, h4, hc, hchg, hbad, hdiff, hv,
                      submitPhase_not_submitting]
                · simp [gateStep, h1, h2, h3, h4, hc, hchg, hbad, hdiff,
                    submitPhase_not_submitting]
            · by_cases hdiff : live.difficulty ≠ c.challenge.difficulty
              · by_cases hv : matchesDifficultyB c.hash live.difficulty = false
                · simp [gateStep, h1, h2, h3, h4, hc, hchg, hdiff, hv,
                    not_mem_eraseElem_self]
                · simp [gateStep, h1, h2, h3, h4, hc, hchg, hdiff, hv,
                    submitPhase_not_submitting]
              · simp [gateStep, h1, h2, h3, h4, hc, hchg, hdiff, submitPhase_not_submitting]
        · simp [gateStep, h1, h2, h3, h4, not_mem_eraseElem_self]

/-- C5: whenever a submission attempt is rejected or fails with an error, an
ErrorRecord is appended to the error log, the per-(address, challenge_id)
failure counter is incremented, the candidate's hash is removed from the
submitted-hashes set, `stoppedWorkers` is cleared and the pause on the pair is
cleared so sibling workers resume, and the solved-set is unchanged. -/
theorem gateStep_reject_bookkeeping (bp : String → String → Challenge → String)
    (hf : String → Hex) (W dn dc : Nat) (msg : String) (resp : Option String)
    (s : OrchestratorState) (c : Candidate) (live : Challenge)
    (h1 : matchesDifficultyB c.hash c.challenge.difficulty = true)
    (h2 : c.hash ∉ s.submittedSolutions)
    (h3 : (c.addr, c.challengeId) ∉ s.submittingAddresses)
    (h4 : s.currentChallengeId = some c.challengeId)
    (h5 : s.currentChallenge = some live)
    (h6 : (c.challenge.latest_submission ≠ live.latest_submission ∨
            c.challenge.no_pre_mine_hour ≠ live.no_pre_mine_hour ∨
            c.challenge.no_pre_mine ≠ live.no_pre_mine) →
          matchesDifficultyB (hf (bp c.nonce c.addr live)) live.difficulty = true)
    (h7 : live.difficulty ≠ c.challenge.difficulty →
          matchesDifficultyB c.hash live.difficulty = true) :
    (gateStep bp hf (NetResponse.err msg resp) W dn dc s c).2 = GateOutcome.rejected ∧
      (gateStep bp hf (NetResponse.err msg resp) W dn dc s c).1.errorLog =
        s.errorLog ++ [⟨c.addr, c.addrIndex, c.challengeId, c.nonce, c.hash, msg, resp⟩] ∧
      getFailures
          (gateStep bp hf (NetResponse.err msg resp) W dn dc s c).1.addressSubmissionFailures
          (c.addr, c.challengeId) =
        getFailures s.addressSubmissionFailures (c.addr, c.challengeId) + 1 ∧
      c.hash ∉ (gateStep bp hf (NetResponse.err msg resp) W dn dc s c).1.submittedSolutions ∧
      (gateStep bp hf (NetResponse.err msg resp) W dn dc s c).1.stoppedWorkers = [] ∧
      (c.addr, c.challengeId) ∉
        (gateStep bp hf (NetResponse.err msg resp) W dn dc s c).1.pausedAddresses ∧
      (gateStep bp hf (NetResponse.err msg resp) W dn dc s c).1.solvedAddressChallenges =
        s.solvedAddressChallenges := by
  rw [gateStep_reaches_submit bp hf (NetResponse.err msg resp) W dn dc s c live
    h1 h2 h3 h4 h5 h6 h7]
  refine ⟨rfl, ?_, ?_, ?_, rfl, ?_, ?_⟩
  · simp [submitPhase, submitSolutionStep, gateAcquireState]
  · simp [submitPhase, submitSolutionStep, gateAcquireState, getFailures_setFailures]
  · simp [submitPhase, submitSolutionStep, not_mem_eraseElem_self]
  · simp [submitPhase, submitSolutionStep, not_mem_eraseElem_self]
  · simp [submitPhase, submitSolutionStep, gateAcquireState]

/-- Sample live challenge used by the concrete witnesses. -/
def sampleLive : Challenge := ⟨"c1", [0, 15, 15, 15, 15, 15, 15, 15], "npm", 3, "ls1"⟩

/-- Frozen snapshot differing from `sampleLive` only in `latest_submission`. -/
def sampleFrozen : Challenge := ⟨"c1", [0, 15, 15, 15, 15, 15, 15, 15], "npm", 3, "ls0"⟩

/-- Sample candidate (stale snapshot) whose hash meets the sample difficulty. -/
def sampleCand : Candidate :=
  ⟨"addr1xyz", 0, 1, false, "c1", sampleFrozen, "n0", "p0", [0, 14, 15, 15, 15, 15, 15, 15]⟩

/-- Sample candidate whose frozen snapshot equals the live challenge. -/
def sampleCandSame : Candidate :=
  ⟨"addr1xyz", 0, 1, false, "c1", sampleLive, "n0", "p0", [0, 14, 15, 15, 15, 15, 15, 15]⟩

/-- Sample state: the sample challenge is live, all sets empty. -/
def sampleState : OrchestratorState :=
  { initialState with currentChallengeId := some "c1", currentChallenge := some sampleLive }

/-- Sample preimage serializer stub. -/
def sampleBuildPreimage : String → String → Challenge → String :=
  fun nonce addr ch => nonce ++ addr ++ ch.latest_submission

/-- Hash-engine stub whose single output fails the sample difficulty. -/
def sampleHashBad : String → Hex := fun _ => [15, 15, 15, 15, 15, 15, 15, 15]

/-- Hash-engine stub whose single output meets the sample difficulty. -/
def sampleHashGood : String → Hex := fun _ => [0, 13, 15, 15, 15, 15, 15, 15]

/-- Witness for C2: with a drifted `latest_submission` and a failing re-hash,
the gate discards the candidate as stale. -/
theorem gateStep_freshness_revalidation_witness :
    (gateStep sampleBuildPreimage sampleHashBad (NetResponse.err "e" none) 2 24 0
        sampleState sampleCand).2 = GateOutcome.staleDiscard :=
  ((gateStep_freshness_revalidation sampleBuildPreimage sampleHashBad
      (NetResponse.err "e" none) 2 24 0 sampleState sampleCand sampleLive
      (by decide) (by decide) (by decide) (by decide) (by decide) (by decide)).1
    (by decide)).1

/-- Witness for C4 at a concrete accepted submission. -/
theorem gateStep_always_releases_lock_witness :
    (sampleCandSame.addr, sampleCandSame.challengeId) ∉
      (gateStep sampleBuildPreimage sampleHashGood (NetResponse.ok none) 2 24 0
          sampleState sampleCandSame).1.submittingAddresses :=
  gateStep_always_releases_lock sampleBuildPreimage sampleHashGood (NetResponse.ok none)
    2 24 0 sampleState sampleCandSame (by decide) (by decide) (by decide)

/-- Witness for C5 at a concrete rejected submission. -/
theorem gateStep_reject_bookkeeping_witness :
    (gateStep sampleBuildPreimage sampleHashGood (NetResponse.err "boom" none) 2 24 0
        sampleState sampleCandSame).2 = GateOutcome.rejected :=
  (gateStep_reject_bookkeeping sampleBuildPreimage sampleHashGood 2 24 0 "boom" none
    sampleState sampleCandSame sampleLive
    (by decide) (by decide) (by decide) (by decide) (by decide) (by decide) (by decide)).1

theorem processReceipt_solved (s : OrchestratorState) (r : Receipt) :
    (processReceipt s r).solvedAddressChallenges =
      insertElem (r.address, r.challenge_id) s.solvedAddressChallenges := by
  simp only [processReceipt]
  split <;> rfl

theorem processReceipt_userCount (s : OrchestratorState) (r : Receipt) :
    (processReceipt s r).userSolutionsCount = s.userSolutionsCount := by
  simp only [processReceipt]
  split <;> rfl

theorem processReceipt_submitted (s : OrchestratorState) (r : Receipt) :
    (processReceipt s r).submittedSolutions =
      if r.hash ≠ [] then insertElem r.hash s.submittedSolutions
      else s.submittedSolutions := by
  simp only [processReceipt]
  split <;> rfl

theorem foldl_processReceipt_userCount :
    ∀ (rs : List Receipt) (s : OrchestratorState),
      (rs.foldl processReceipt s).userSolutionsCount = s.userSolutionsCount
  | [], _ => rfl
  | r :: rs, s => by
      rw [List.foldl_cons, foldl_processReceipt_userCount rs, processReceipt_userCount]

theorem mem_solved_foldl :
    ∀ (rs : List Receipt) (s : OrchestratorState) (a cid : String),
      ((a, cid) ∈ (rs.foldl processReceipt s).solvedAddressChallenges ↔
        (a, cid) ∈ s.solvedAddressChallenges ∨
          ∃ r ∈ rs, r.address = a ∧ r.challenge_id = cid)
  | [], s, a, cid => by simp
  | r :: rs, s, a, cid => by
      rw [List.foldl_cons, mem_solved_foldl rs _ a cid, processReceipt_solved,
        mem_insertElem]
      constructor
      · rintro ((heq | hmem) | ⟨r', hr', ha, hc⟩)
        · rw [Prod.mk.injEq] at heq
          exact Or.inr ⟨r, List.mem_cons_self r rs, heq.1.symm, heq.2.symm⟩
        · exact Or.inl hmem
        · exact Or.inr ⟨r', List.mem_cons_of_mem r hr', ha, hc⟩
      · rintro (hmem | ⟨r', hr', ha, hc⟩)
        · exact Or.inl (Or.inr hmem)
        · rcases List.mem_cons.mp hr' with rfl | hr''
          · exact Or.inl (Or.inl (by rw [ha, hc]))
          · exact Or.inr ⟨r', hr'', ha, hc⟩

theorem mem_submitted_foldl :
    ∀ (rs : List Receipt) (s : OrchestratorState) (hsh : Hex),
      (hsh ∈ (rs.foldl processReceipt s).submittedSolutions ↔
        hsh ∈ s.submittedSolutions ∨ ∃ r ∈ rs, r.hash = hsh ∧ r.hash ≠ [])
  | [], s, hsh => by simp
  | r :: rs, s, hsh => by
      rw [List.foldl_cons, mem_submitted_foldl rs _ hsh, processReceipt_submitted]
      by_cases hr : r.hash ≠ []
      · rw [if_pos hr, mem_insertElem]
        constructor
        · rintro ((heq | hmem) | ⟨r', hr', hh, hne⟩)
          · exact Or.inr ⟨r, List.mem_cons_self r rs, heq.symm, hr⟩
          · exact Or.inl hmem
          · exact Or.inr ⟨r', List.mem_cons_of_mem r hr', hh, hne⟩
        · rintro (hmem | ⟨r', hr', hh, hne⟩)
          · exact Or.inl (Or.inr hmem)
          · rcases List.mem_cons.mp hr' with rfl | hr''
            · exact Or.inl (Or.inl hh.symm)
            · exact Or.inr ⟨r', hr'', hh, hne⟩
      · rw [if_neg hr]
        constructor
        · rintro (hmem | ⟨r', hr', hh, hne⟩)
          · exact Or.inl hmem
          · exact Or.inr ⟨r', List.mem_cons_of_mem r hr', hh, hne⟩
        · rintro (hmem | ⟨r', hr', hh, hne⟩)
          · exact Or.inl hmem
          · rcases List.mem_cons.mp hr' with rfl | hr''
            · exact absurd hne hr
            · exact Or.inr ⟨r', hr'', hh, hne⟩

theorem exists_mem_filter_isDevFee_or {P : Receipt → Prop} (l : List Receipt) :
    ((∃ r ∈ l.filter (fun r => !r.isDevFee), P r) ∨
        (∃ r ∈ l.filter (fun r => r.isDevFee), P r)) ↔
      ∃ r ∈ l, P r := by
  constructor
  · rintro (⟨r, hr, hP⟩ | ⟨r, hr, hP⟩) <;> exact ⟨r, (List.mem_filter.mp hr).1, hP⟩
  · rintro ⟨r, hr, hP⟩
    cases hdf : r.isDevFee
    · exact Or.inl ⟨r, List.mem_filter.mpr ⟨hr, by rw [hdf]; rfl⟩, hP⟩
    · exact Or.inr ⟨r, List.mem_filter.mpr ⟨hr, hdf⟩, hP⟩

/-- C3: after replaying the receipt log at startup from the fresh state,
`userSolutionsCount` equals the number of non-dev-fee receipts; the solved map
holds (address, challenge) exactly when some receipt — user or dev-fee — with
that address and challenge exists; and the submitted-hash dedup set contains
the hash of every receipt (receipts carry a nonempty hash per the data model;
the replay's JS truthiness guard skips a record without one). -/
theorem loadSubmittedSolutions_replay (receipts : List Receipt)
    (hw : ∀ r ∈ receipts, r.hash ≠ [])
    (a cid : String) (r0 : Receipt) (hr0 : r0 ∈ receipts) :
    (loadSubmittedSolutions receipts initialState).userSolutionsCount =
        (receipts.filter (fun r => !r.isDevFee)).length ∧
      ((a, cid) ∈ (loadSubmittedSolutions receipts initialState).solvedAddressChallenges ↔
        ∃ r ∈ receipts, r.address = a ∧ r.challenge_id = cid) ∧
      r0.hash ∈ (loadSubmittedSolutions receipts initialState).submittedSolutions := by
  simp only [loadSubmittedSolutions]
  refine ⟨?_, ?_, ?_⟩
  · rw [foldl_processReceipt_userCount, foldl_processReceipt_userCount]
  · rw [mem_solved_foldl, mem_solved_foldl]
    have hinit : ((a, cid) ∈
        ({ initialState with
            userSolutionsCount :=
              (receipts.filter (fun r => !r.isDevFee)).length } :
          OrchestratorState).solvedAddressChallenges) ↔ False := by
      simp [initialState]
    rw [hinit]
    rw [false_or]
    exact exists_mem_filter_isDevFee_or receipts
  · rw [mem_submitted_foldl, mem_submitted_foldl]
    cases hdf : r0.isDevFee
    · exact Or.inl (Or.inr ⟨r0, List.mem_filter.mpr ⟨hr0, by rw [hdf]; rfl⟩, rfl, hw r0 hr0⟩)
    · exact Or.inr ⟨r0, List.mem_filter.mpr ⟨hr0, hdf⟩, rfl, hw r0 hr0⟩

/-- Sample receipt log for the replay witness. -/
def sampleReceipts : List Receipt :=
  [⟨"a1", 0, "c1", "n1", [1], false⟩, ⟨"a2", 1, "c1", "n2", [2], true⟩]

/-- Witness for C3 on a two-receipt log (one user, one dev-fee). -/
theorem loadSubmittedSolutions_replay_witness :
    (loadSubmittedSolutions sampleReceipts initialState).userSolutionsCount =
        (sampleReceipts.filter (fun r => !r.isDevFee)).length ∧
      (("a1", "c1") ∈
          (loadSubmittedSolutions sampleReceipts initialState).solvedAddressChallenges ↔
        ∃ r ∈ sampleReceipts, r.address = "a1" ∧ r.challenge_id = "c1") ∧
      (⟨"a1", 0, "c1", "n1", [1], false⟩ : Receipt).hash ∈
        (loadSubmittedSolutions sampleReceipts initialState).submittedSolutions :=
  loadSubmittedSolutions_replay sampleReceipts (by decide) "a1" "c1"
    ⟨"a1", 0, "c1", "n1", [1], false⟩ (by decide)

/-- C9 counterexample: `loadChallengeState` can decrease `solutionsFound` — at
a state with one recorded solution and an empty receipt log for the loaded
challenge it resets the counter to 0. -/
theorem loadChallengeState_decreases_solutionsFound :
    (loadChallengeState [] "c1"
        { initialState with solutionsFound := 1 }).solutionsFound <
      ({ initialState with solutionsFound := 1 } : OrchestratorState).solutionsFound := by
  decide

/-- C9 (amended): accepting a solution increments `solutionsFound` and a
submission never decreases it; however `start()` resets the counter to 0 and
`loadChallengeState` sets it to the number of receipts recorded for the loaded
challenge, either of which can decrease it. -/
theorem solutionsFound_characterization :
    (∀ (cr : Option String) (dn dc : Nat) (s : OrchestratorState) (c : Candidate),
        (submitSolutionStep (NetResponse.ok cr) dn dc s c).1.solutionsFound =
          s.solutionsFound + 1) ∧
      (∀ (net : NetResponse) (dn dc : Nat) (s : OrchestratorState) (c : Candidate),
        s.solutionsFound ≤ (submitSolutionStep net dn dc s c).1.solutionsFound) ∧
      (∀ (receipts : List Receipt) (cid : String) (s : OrchestratorState),
        (loadChallengeState receipts cid s).solutionsFound =
          (receipts.filter (fun r => decide (r.challenge_id = cid))).length) ∧
      (∀ s : OrchestratorState, (startResetCounters s).solutionsFound = 0) := by
  refine ⟨fun cr dn dc s c => rfl, ?_, fun receipts cid s => rfl, fun s => rfl⟩
  intro net dn dc s c
  cases net
  · simp [submitSolutionStep]
  · simp [submitSolutionStep]

/-- C8: with the guards satisfied, the dev-fee obligation launches exactly
`expected - devFeeCount` cohort attempts when `expected = ⌊user/R⌋` exceeds
the recorded dev-fee solutions and none otherwise; with any guard failing it
launches none; and after a non-dev-fee accepted submission the opportunistic
dev-fee check fires exactly when the new expected count exceeds the recorded
dev-fee count, which is exactly when the obligation is positive. -/
theorem devFeeObligation (dn : Nat) (hdn : 0 < dn) :
    (∀ u d : Nat, d < u / dn →
        checkAndMineDevFeeCohorts true true true u dn d = u / dn - d) ∧
      (∀ u d : Nat, u / dn ≤ d →
        checkAndMineDevFeeCohorts true true true u dn d = 0) ∧
      (∀ (e p a : Bool) (u d : Nat), e = false ∨ p = false ∨ a = false →
        checkAndMineDevFeeCohorts e p a u dn d = 0) ∧
      (∀ (cr : Option String) (d : Nat) (s : OrchestratorState) (c : Candidate),
        c.isDevFee = false →
          ((submitSolutionStep (NetResponse.ok cr) dn d s c).2.2 = true ↔
              d < (s.userSolutionsCount + 1) / dn) ∧
            ((submitSolutionStep (NetResponse.ok cr) dn d s c).2.2 = true ↔
              0 < checkAndMineDevFeeCohorts true true true
                (s.userSolutionsCount + 1) dn d)) := by
  refine ⟨?_, ?_, ?_, ?_⟩
  · intro u d hlt
    simp only [checkAndMineDevFeeCohorts]
    rw [if_neg (by simp), if_neg (by simp), if_neg (by simp)]
    split <;> omega
  · intro u d hle
    simp only [checkAndMineDevFeeCohorts]
    rw [if_neg (by simp), if_neg (by simp), if_neg (by simp)]
    split <;> omega
  · rintro e p a u d (rfl | rfl | rfl) <;> simp [checkAndMineDevFeeCohorts]
  · intro cr d s c hdf
    constructor
    · simp [submitSolutionStep, hdf]
    · have h1 : (submitSolutionStep (NetResponse.ok cr) dn d s c).2.2 = true ↔
          d < (s.userSolutionsCount + 1) / dn := by simp [submitSolutionStep, hdf]
      rw [h1]
      simp only [checkAndMineDevFeeCohorts]
      rw [if_neg (by simp), if_neg (by simp), if_neg (by simp)]
      split <;> omega

/-- Witness for C8 at `user = 48`, ratio 24, one dev-fee solution recorded. -/
theorem devFeeObligation_witness :
    checkAndMineDevFeeCohorts true true true 48 24 1 = 48 / 24 - 1 :=
  (devFeeObligation 24 (by decide)).1 48 1 (by decide)
